import Mathlib

/-!
Verification of the metrics-and-summary pipeline of `update_dashboard.py`
(Financial-Insights-Data-Project).

The pipeline is `load_data` (Price Series Normalizer), `compute_metrics`
(Metrics Engine) and `compute_summary` (Summary Reducer).  The embedding
models pandas floating-point values by exact rationals (`Rat`); a pandas
`NaN` cell ("undefined") is modelled by `Option.none`.  Volatility
(`Vol_10`, a standard deviation times `√252`) is represented by its
square, which keeps every definition inside `Rat`: the source value is
the square root of the modelled one, and since `Real.sqrt` is injective
on nonnegative arguments, equalities and definedness transfer verbatim.
-/

namespace Dashboard

/-! ### Raw input model

A `Source` stands for one CSV file in `./data`: its (already split)
header strings and its rows.  A raw cell that pandas fails to coerce
(`pd.to_datetime(..., errors="coerce")` / `pd.to_numeric(..., errors="coerce")`)
is `none`.  Dates are modelled as integers (calendar order only matters). -/

structure RawRow where
  date : Option Int
  ticker : String
  close : Option Rat
deriving DecidableEq

structure Source where
  cols : List String
  rows : List RawRow
deriving DecidableEq

/-- A normalized observation: every surviving row has a parsed date and a
parsed numeric close (`df.dropna(subset=["Date", "Close"])`). -/
structure Obs where
  date : Int
  ticker : String
  close : Rat
deriving DecidableEq, Inhabited

/-! ### Column-name normalization: `c.strip().title()` -/

/-- Python `str.title()` over a character list: a letter following a
non-letter is uppercased, a letter following a letter is lowercased. -/
def titleChars : Bool → List Char → List Char
  | _, [] => []
  | prevAlpha, c :: rest =>
    (if prevAlpha then c.toLower else c.toUpper) :: titleChars c.isAlpha rest

/-- Python `str.strip()`: drop leading and trailing whitespace. -/
def stripChars (l : List Char) : List Char :=
  ((l.dropWhile Char.isWhitespace).reverse.dropWhile Char.isWhitespace).reverse

/-- `c.strip().title()`, the normalization `load_data` applies to each
column header before testing for the required columns. -/
def normCol (s : String) : String :=
  String.mk (titleChars false (stripChars s.data))

/-- `{"Date", "Ticker", "Close"}.issubset(df.columns)` after header
normalization. -/
def requiredColsPresent (cols : List String) : Bool :=
  let n := cols.map normCol
  "Date" ∈ n && "Ticker" ∈ n && "Close" ∈ n

/-! ### Sorting

`sort_values(["Ticker", "Date"])` is modelled by a stable insertion sort
on the lexicographic (ticker, date) key; `sort_values("Date")` inside a
single-ticker group by a stable insertion sort on the date. -/

/-- Code-point lexicographic comparison of character lists: the string
order Python uses when pandas sorts the Ticker column. -/
def charListLt : List Char → List Char → Bool
  | _, [] => false
  | [], _ :: _ => true
  | a :: as, b :: bs => decide (a < b) || (a == b && charListLt as bs)

theorem charListLt_irrefl : ∀ s : List Char, charListLt s s = false
  | [] => rfl
  | a :: as => by
    simp [charListLt, charListLt_irrefl as]

theorem charListLt_total :
    ∀ s t : List Char, charListLt s t = true ∨ charListLt t s = true ∨ s = t
  | [], [] => Or.inr (Or.inr rfl)
  | [], _ :: _ => Or.inl rfl
  | _ :: _, [] => Or.inr (Or.inl rfl)
  | a :: as, b :: bs => by
    rcases lt_trichotomy a b with h | h | h
    · left
      simp [charListLt, h]
    · subst h
      rcases charListLt_total as bs with h2 | h2 | h2
      · left
        simp [charListLt, h2]
      · right; left
        simp [charListLt, h2]
      · right; right
        rw [h2]
    · right; left
      simp [charListLt, h]

theorem charListLt_trans :
    ∀ s t u : List Char, charListLt s t = true → charListLt t u = true →
      charListLt s u = true
  | _, [], [] => by
    intro _ h2
    simp [charListLt] at h2
  | _, _ :: _, [] => by
    intro _ h2
    simp [charListLt] at h2
  | [], [], _ :: _ => by
    intro h1 _
    simp [charListLt] at h1
  | a :: as, [], _ :: _ => by
    intro h1 _
    simp [charListLt] at h1
  | [], _ :: _, _ :: _ => by
    intro _ _
    rfl
  | a :: as, b :: bs, c :: cu => by
    intro h1 h2
    simp only [charListLt, Bool.or_eq_true, decide_eq_true_eq, Bool.and_eq_true,
      beq_iff_eq] at h1 h2 ⊢
    rcases h1 with h1 | ⟨hab, h1t⟩
    · rcases h2 with h2 | ⟨hbc, _⟩
      · exact Or.inl (h1.trans h2)
      · exact Or.inl (hbc ▸ h1)
    · rcases h2 with h2 | ⟨hbc, h2t⟩
      · exact Or.inl (hab ▸ h2)
      · exact Or.inr ⟨hab.trans hbc, charListLt_trans as bs cu h1t h2t⟩

/-- Lexicographic (ticker, date) order used by `sort_values(["Ticker", "Date"])`. -/
def obsLe (a b : Obs) : Prop :=
  charListLt a.ticker.data b.ticker.data = true ∨
    (a.ticker = b.ticker ∧ a.date ≤ b.date)

instance : DecidableRel obsLe := fun a b =>
  inferInstanceAs (Decidable (charListLt a.ticker.data b.ticker.data = true ∨
    (a.ticker = b.ticker ∧ a.date ≤ b.date)))

instance : IsTotal Obs obsLe where
  total a b := by
    rcases charListLt_total a.ticker.data b.ticker.data with h | h | h
    · exact Or.inl (Or.inl h)
    · exact Or.inr (Or.inl h)
    · have ht : a.ticker = b.ticker := by
        cases ha : a.ticker
        cases hb : b.ticker
        rw [ha, hb] at h
        simp at h
        rw [h]
      rcases le_total a.date b.date with hd | hd
      · exact Or.inl (Or.inr ⟨ht, hd⟩)
      · exact Or.inr (Or.inr ⟨ht.symm, hd⟩)

instance : IsTrans Obs obsLe where
  trans a b c hab hbc := by
    rcases hab with h1 | ⟨h1, d1⟩
    · rcases hbc with h2 | ⟨h2, _⟩
      · exact Or.inl (charListLt_trans _ _ _ h1 h2)
      · exact Or.inl (h2 ▸ h1)
    · rcases hbc with h2 | ⟨h2, d2⟩
      · exact Or.inl (h1 ▸ h2)
      · exact Or.inr ⟨h1.trans h2, d1.trans d2⟩

/-- The string order used for groupby keys. -/
def strLe (s t : String) : Prop :=
  charListLt s.data t.data = true ∨ s = t

instance : DecidableRel strLe := fun s t =>
  inferInstanceAs (Decidable (charListLt s.data t.data = true ∨ s = t))

/-- Model of `sort_values(["Ticker", "Date"])`. -/
def sortObs (l : List Obs) : List Obs :=
  l.insertionSort obsLe

/-! ### `load_data` (Price Series Normalizer) -/

/-- The fatal error of the Normalizer (`RuntimeError` in the script; the
spec names it `NoValidInputError`). -/
inductive LoadError where
  | noValidInput
deriving DecidableEq

/-- Row-level coercion: the row survives `dropna(subset=["Date", "Close"])`
exactly when both the date and the close parsed. -/
def parseRow (r : RawRow) : Option Obs :=
  match r.date, r.close with
  | some d, some c => some ⟨d, r.ticker, c⟩
  | _, _ => none

/-- One iteration of the `load_data` loop: a source whose normalized
headers contain Date, Ticker and Close contributes its parsed, sorted
rows (possibly the empty frame); any other source is skipped. -/
def loadSource (s : Source) : Option (List Obs) :=
  if requiredColsPresent s.cols then
    some (sortObs (s.rows.filterMap parseRow))
  else
    none

/-- `load_data`: concatenate the per-source frames and sort; fail with
`noValidInput` exactly when no source passed the column check. -/
def load_data (srcs : List Source) : Except LoadError (List Obs) :=
  if (srcs.filterMap loadSource).isEmpty then
    Except.error LoadError.noValidInput
  else
    Except.ok (sortObs (srcs.filterMap loadSource).flatten)

/-- The per-ticker Series of the Normalizer output: the rows of one
ticker, in output order. -/
def seriesFor (out : List Obs) (t : String) : List Obs :=
  out.filter (fun o => o.ticker == t)

/-! ### Metrics Engine primitives -/

/-- `Series.shift(1)`: each position holds the previous close, `none` at
position 0. -/
def shift1 (cs : List Rat) : List (Option Rat) :=
  none :: cs.map some

/-- `Series.pct_change()` = `close / close.shift(1) - 1` elementwise.
(The closes carry no NaN at this point, so the default forward-fill is
the identity.) -/
def pctList (cs : List Rat) : List (Option Rat) :=
  (cs.zip (shift1 cs)).map (fun p => p.2.map (fun prev => p.1 / prev - 1))

/-- Arithmetic mean. -/
def listMean (l : List Rat) : Rat :=
  l.sum / (l.length : Rat)

/-- Sample variance, `ddof = 1` (the pandas `std` default, squared). -/
def sampleVar (l : List Rat) : Rat :=
  ((l.map (fun x => (x - listMean l) ^ 2)).sum) / ((l.length : Rat) - 1)

/-- pandas `Series.rolling(window=w).agg(f)` with the default
`min_periods = w`: at index `i` the window is the at most `w` positions
ending at `i`; the aggregate is defined only when the window holds `w`
non-NaN values. -/
def rollingOpt (w : Nat) (f : List Rat → Rat) (xs : List (Option Rat)) :
    List (Option Rat) :=
  (List.range xs.length).map (fun i =>
    let vals := ((xs.take (i + 1)).drop (i + 1 - w)).reduceOption
    if vals.length = w then some (f vals) else none)

/-- `Close.rolling(window=k).mean()`. -/
def maList (k : Nat) (cs : List Rat) : List (Option Rat) :=
  rollingOpt k listMean (cs.map some)

/-- The square of `Pct_Change.rolling(window=10).std() * sqrt 252`:
rolling sample variance of the percent changes times 252. -/
def vol10SqList (cs : List Rat) : List (Option Rat) :=
  rollingOpt 10 (fun l => sampleVar l * 252) (pctList cs)

/-! ### `compute_metrics` (Metrics Engine) -/

/-- A row of the Metrics table.  `vol10Sq` is the square of the source's
`Vol_10` (see the header comment). -/
structure MRow where
  date : Int
  ticker : String
  close : Rat
  pct : Option Rat
  ma10 : Option Rat
  ma30 : Option Rat
  vol10Sq : Option Rat
deriving DecidableEq, Inhabited

/-- `g.sort_values("Date")` inside one ticker group (stable). -/
def sortGroupByDate (g : List Obs) : List Obs :=
  g.insertionSort (fun a b => a.date ≤ b.date)

/-- The groupby keys: distinct tickers, in ascending order
(`groupby` sorts its keys). -/
def tickerKeys (rows : List Obs) : List String :=
  ((rows.map (fun r => r.ticker)).dedup).insertionSort strLe

/-- The body of the `compute_metrics` loop for the group `g` of ticker
`t`: sort by date and attach the derived columns.  (The second
`to_numeric`/`dropna` pass is the identity here: every `Obs.close` is
already a parsed number.) -/
def metricGroup (t : String) (g : List Obs) : List MRow :=
  let g' := sortGroupByDate g
  let cs := g'.map (fun o => o.close)
  (List.range g'.length).map (fun i =>
    { date := (g'.getD i default).date
      ticker := t
      close := cs.getD i 0
      pct := (pctList cs).getD i none
      ma10 := (maList 10 cs).getD i none
      ma30 := (maList 30 cs).getD i none
      vol10Sq := (vol10SqList cs).getD i none })

/-- `compute_metrics`: per-ticker metric rows, concatenated in key
order.  An empty group contributes nothing (`if g.empty: continue`). -/
def compute_metrics (rows : List Obs) : List MRow :=
  (tickerKeys rows).flatMap (fun t =>
    metricGroup t (rows.filter (fun r => r.ticker == t)))

/-! ### `compute_summary` (Summary Reducer) -/

/-- The only exception the Reducer body can raise on in-contract input:
Python float division by `0.0`. -/
inductive SumError where
  | zeroDivision
deriving DecidableEq

structure SRow where
  ticker : String
  total_return : Option Rat
  return_5d : Option Rat
  vol_10 : Option Rat
  last_close : Option Rat
deriving DecidableEq, Inhabited

/-- `g.sort_values("Date")` on metric rows (stable). -/
def sortMByDate (g : List MRow) : List MRow :=
  g.insertionSort (fun a b => a.date ≤ b.date)

/-- `last_close = float(g["Close"].iloc[-1]) if pd.notna(...) else None`;
closes of metric rows are always defined, so this is the close of the
last row when one exists. -/
def lastClose (g : List MRow) : Option Rat :=
  g.getLast?.map (fun r => r.close)

/-- `total_ret`: guarded by `len(g) >= 2 and g["Close"].iloc[0] not in
(None, 0)`, then again by `if first_close` — both zero tests are kept. -/
def totalReturn (g : List MRow) : Option Rat :=
  if 2 ≤ g.length ∧ ¬ (g.headD default).close = 0 then
    let first := (g.headD default).close
    if first = 0 then none
    else (lastClose g).map (fun lc => lc / first - 1)
  else none

/-- `ret_5d`: guarded only by `len(g) >= 6 and pd.notna(g["Close"].iloc[-6])`;
the division `last_close / float(g["Close"].iloc[-6])` raises
`ZeroDivisionError` when that close is zero. -/
def return5d (g : List MRow) : Except SumError (Option Rat) :=
  if 6 ≤ g.length then
    let c6 := (g.getD (g.length - 6) default).close
    if c6 = 0 then Except.error SumError.zeroDivision
    else Except.ok (some ((g.getLastD default).close / c6 - 1))
  else Except.ok none

/-- `vol10 = g["Vol_10"].dropna().iloc[-1]` when any defined value
exists, else `None`: the last defined rolling volatility (squared, in
this model). -/
def vol10Latest (g : List MRow) : Option Rat :=
  (g.filterMap (fun r => r.vol10Sq)).getLast?

/-- The body of the `compute_summary` loop for the group `g` of ticker
`t`: an empty group is skipped (`if g.empty: continue`, result `none`);
otherwise the four point statistics are computed, propagating the
possible division-by-zero from `ret_5d`. -/
def summarizeGroup (t : String) (g : List MRow) :
    Except SumError (Option SRow) :=
  let g' := sortMByDate g
  if g'.isEmpty then Except.ok none
  else
    match return5d g' with
    | Except.error e => Except.error e
    | Except.ok r5 =>
      Except.ok (some
        { ticker := t
          total_return := totalReturn g'
          return_5d := r5
          vol_10 := vol10Latest g'
          last_close := lastClose g' })

/-- The groupby keys of the Metrics table. -/
def mTickerKeys (m : List MRow) : List String :=
  ((m.map (fun r => r.ticker)).dedup).insertionSort strLe

/-- `compute_summary`: one row per non-empty ticker group, in key order;
the first division-by-zero aborts the whole computation, as the
uncaught Python exception would. -/
def compute_summary (m : List MRow) : Except SumError (List SRow) :=
  match (mTickerKeys m).mapM
      (fun t => summarizeGroup t (m.filter (fun r => r.ticker == t))) with
  | Except.error e => Except.error e
  | Except.ok rows => Except.ok rows.reduceOption

instance {ε α : Type _} [DecidableEq ε] [DecidableEq α] : DecidableEq (Except ε α) :=
  fun a b =>
    match a, b with
    | Except.error e, Except.error f =>
      if h : e = f then Decidable.isTrue (congrArg Except.error h)
      else Decidable.isFalse (fun hh => h (Except.error.inj hh))
    | Except.ok x, Except.ok y =>
      if h : x = y then Decidable.isTrue (congrArg Except.ok h)
      else Decidable.isFalse (fun hh => h (Except.ok.inj hh))
    | Except.error _, Except.ok _ => Decidable.isFalse (fun hh => Except.noConfusion hh)
    | Except.ok _, Except.error _ => Decidable.isFalse (fun hh => Except.noConfusion hh)

/-! ### Concrete inputs used by the counterexamples and witnesses -/

/-- Ten observations of one ticker with constant close 50, dates 0..9. -/
def constSeries10 : List Obs :=
  (List.range 10).map (fun i => ⟨(i : Int), "T", 50⟩)

/-- Eleven observations of one ticker with constant close 50, dates 0..10. -/
def constSeries11 : List Obs :=
  (List.range 11).map (fun i => ⟨(i : Int), "T", 50⟩)

/-- Six observations for ticker "A" whose earliest close is 0: `ret_5d`
looks back exactly to that zero. -/
def zeroLookbackSeries : List Obs :=
  [⟨0, "A", 0⟩, ⟨1, "A", 1⟩, ⟨2, "A", 1⟩, ⟨3, "A", 1⟩, ⟨4, "A", 1⟩, ⟨5, "A", 2⟩]

/-- A well-formed source holding the same (ticker, date) row twice. -/
def dupDateSource : Source :=
  { cols := ["Date", "Ticker", "Close"]
    rows := [⟨some 1, "A", some 10⟩, ⟨some 1, "A", some 10⟩] }

/-- A source with the required columns (spelled with stray case and
whitespace) whose single row has an unparseable date. -/
def allRowsDroppedSource : Source :=
  { cols := [" date ", "TICKER", "close"]
    rows := [⟨none, "A", some 1⟩] }

/-- A source lacking the Close column; its row is perfectly parseable
but the source is skipped wholesale by the column check. -/
def noCloseSource : Source :=
  { cols := ["Date", "Ticker"]
    rows := [⟨some 2, "B", some 5⟩] }

/-- Two tickers interleaved one way... -/
def permInput1 : List Obs :=
  [⟨0, "A", 1⟩, ⟨0, "B", 2⟩, ⟨1, "A", 3⟩]

/-- ...and the same records with the cross-ticker order changed, each
ticker's own subsequence intact. -/
def permInput2 : List Obs :=
  [⟨0, "B", 2⟩, ⟨0, "A", 1⟩, ⟨1, "A", 3⟩]

/-! ### Helper lemmas -/

theorem pctList_length (cs : List Rat) : (pctList cs).length = cs.length := by
  simp [pctList, shift1]

theorem pctList_getD (cs : List Rat) (i : Nat) (h : i < cs.length) :
    (pctList cs).getD i none =
      if i = 0 then none
      else some (cs.getD i 0 / cs.getD (i - 1) 0 - 1) := by
  have h' : i < (pctList cs).length := by rw [pctList_length]; exact h
  have hz : i < (cs.zip (shift1 cs)).length := by
    simpa [pctList] using h'
  rw [List.getD_eq_getElem (pctList cs) none h']
  unfold pctList
  rw [List.getElem_map]
  rw [List.getElem_zip]
  rcases i with _ | j
  · simp [shift1]
  · have hj : j < cs.length := by omega
    simp only [shift1, List.getElem_cons_succ, List.getElem_map]
    rw [List.getD_eq_getElem cs 0 h, List.getD_eq_getElem cs 0 (by omega : j + 1 - 1 < cs.length)]
    simp [Option.map_some]

theorem rollingOpt_length (w : Nat) (f : List Rat → Rat) (xs : List (Option Rat)) :
    (rollingOpt w f xs).length = xs.length := by
  simp [rollingOpt]

theorem rollingOpt_getD (w : Nat) (f : List Rat → Rat) (xs : List (Option Rat))
    (i : Nat) (h : i < xs.length) :
    (rollingOpt w f xs).getD i none =
      (if (((xs.take (i + 1)).drop (i + 1 - w)).reduceOption).length = w
       then some (f (((xs.take (i + 1)).drop (i + 1 - w)).reduceOption))
       else none) := by
  have h' : i < (rollingOpt w f xs).length := by rw [rollingOpt_length]; exact h
  rw [List.getD_eq_getElem (rollingOpt w f xs) none h']
  unfold rollingOpt
  rw [List.getElem_map]
  simp

/-- A rolling window ending at `i` delivers exactly `w` defined values
iff the window is long enough (`w ≤ i + 1`) and every position it
covers is defined. -/
theorem rolling_window_full_iff (w : Nat) (xs : List (Option Rat)) (i : Nat)
    (hw : 0 < w) (h : i < xs.length) :
    ((((xs.take (i + 1)).drop (i + 1 - w)).reduceOption).length = w) ↔
      (w ≤ i + 1 ∧ ∀ j, i + 1 - w ≤ j → j ≤ i → ((xs.getD j none).isSome = true)) := by
  set W := (xs.take (i + 1)).drop (i + 1 - w) with hW
  have hWlen : W.length = min w (i + 1) := by
    rw [hW, List.length_drop, List.length_take]
    omega
  have hWget : ∀ k, k < W.length → W.getD k none = xs.getD (i + 1 - w + k) none := by
    intro k hk
    have hk2 : k < (xs.take (i + 1)).length - (i + 1 - w) := by
      rw [← List.length_drop, ← hW]; exact hk
    have hk3 : i + 1 - w + k < xs.length := by
      rw [List.length_take] at hk2; omega
    have hk4 : i + 1 - w + k < (xs.take (i + 1)).length := by
      rw [List.length_take]; omega
    rw [List.getD_eq_getElem W none hk, List.getD_eq_getElem xs none hk3]
    simp only [hW, List.getElem_drop, List.getElem_take]
  constructor
  · intro hred
    have hle := List.reduceOption_length_le W
    have hWw : W.length = w := by omega
    have hall := List.reduceOption_length_eq_iff.mp (by omega : W.reduceOption.length = W.length)
    refine ⟨by omega, ?_⟩
    intro j hj1 hj2
    have hk : j - (i + 1 - w) < W.length := by omega
    have := hall (W.getD (j - (i + 1 - w)) none)
      (by rw [List.getD_eq_getElem W none hk]; exact List.getElem_mem hk)
    rw [hWget _ hk] at this
    have hj3 : i + 1 - w + (j - (i + 1 - w)) = j := by omega
    rw [hj3] at this
    exact this
  · rintro ⟨hwle, hall⟩
    have hWw : W.length = w := by omega
    rw [← hWw]
    apply List.reduceOption_length_eq_iff.mpr
    intro x hx
    obtain ⟨⟨k, hk⟩, hget⟩ := List.mem_iff_get.mp hx
    have hgd : W.getD k none = x := by
      rw [List.getD_eq_getElem W none hk, ← hget]
      simp
    rw [hWget _ hk] at hgd
    have := hall (i + 1 - w + k) (by omega) (by omega)
    rw [hgd] at this
    exact this

/-- C2: `vol_10[i]` (squared, exact model) is defined exactly when
`i ≥ 9` and `pct_change` is defined on the whole window `[i-9, i]`, and
then equals the sample variance of those 10 values times 252 — i.e. the
square of their sample standard deviation times `√252`. -/
theorem vol10_spec (cs : List Rat) (i : Nat) :
    (vol10SqList cs).getD i none =
      (if 9 ≤ i ∧ ∀ j, i - 9 ≤ j → j ≤ i → (((pctList cs).getD j none).isSome = true)
       then some (sampleVar ((((pctList cs).drop (i - 9)).take 10).reduceOption) * 252)
       else none) := by
  by_cases hlen : i < cs.length
  · have hlen' : i < (pctList cs).length := by rw [pctList_length]; exact hlen
    rw [vol10SqList, rollingOpt_getD 10 _ (pctList cs) i hlen']
    have hiff := rolling_window_full_iff 10 (pctList cs) i (by norm_num) hlen'
    have hsub : i + 1 - 10 = i - 9 := by omega
    rw [hsub] at hiff
    by_cases hc : 9 ≤ i ∧ ∀ j, i - 9 ≤ j → j ≤ i → (((pctList cs).getD j none).isSome = true)
    · have hred : ((((pctList cs).take (i + 1)).drop (i + 1 - 10)).reduceOption).length = 10 := by
        rw [hsub]
        exact hiff.mpr ⟨by omega, hc.2⟩
      rw [if_pos hred, if_pos hc]
      have hwin : ((pctList cs).take (i + 1)).drop (i + 1 - 10) =
          ((pctList cs).drop (i - 9)).take 10 := by
        rw [List.drop_take]
        have : i + 1 - (i + 1 - 10) = 10 := by omega
        rw [this, hsub]
      rw [hwin]
    · have hred : ¬ ((((pctList cs).take (i + 1)).drop (i + 1 - 10)).reduceOption).length = 10 := by
        rw [hsub]
        intro hcon
        exact hc ⟨by omega, (hiff.mp hcon).2⟩
      rw [if_neg hred, if_neg hc]
  · have hlen2 : (vol10SqList cs).length ≤ i := by
      rw [vol10SqList, rollingOpt_length, pctList_length]; omega
    rw [List.getD_eq_default _ none hlen2]
    have hc : ¬ (9 ≤ i ∧ ∀ j, i - 9 ≤ j → j ≤ i → (((pctList cs).getD j none).isSome = true)) := by
      rintro ⟨h9, hall⟩
      have := hall i (by omega) (le_refl i)
      rw [List.getD_eq_default _ none (by rw [pctList_length]; omega)] at this
      simp at this
    rw [if_neg hc]

/-- C9: `pct_change[0]` is undefined, and for `i ≥ 1` the value is
`close[i] / close[i-1] - 1`. -/
theorem pct_change_spec (cs : List Rat) (i : Nat) (h : i < cs.length) :
    (pctList cs).getD i none =
      if i = 0 then none
      else some (cs.getD i 0 / cs.getD (i - 1) 0 - 1) :=
  pctList_getD cs i h

/-- Witness for C9 at the concrete series `[10, 11]`, index 1. -/
theorem pct_change_spec_witness :
    (pctList [(10 : Rat), 11]).getD 1 none =
      (if 1 = 0 then none
       else some (([(10 : Rat), 11]).getD 1 0 / ([(10 : Rat), 11]).getD (1 - 1) 0 - 1)) :=
  pct_change_spec [(10 : Rat), 11] 1 (by decide)

/-- C3 counterexample: for ten constant closes of 50, `Vol_10` at index
9 is NaN, not 0 — `Pct_Change[0]` is NaN, so the first 10-value window
of percent changes is incomplete and `rolling(10).std()` (with its
default `min_periods = 10`) yields NaN there. -/
theorem constant10_vol_not_zero :
    (metricGroup "T" constSeries10).length = 10 ∧
    ((metricGroup "T" constSeries10).getD 9 default).vol10Sq = none := by
  norm_num [metricGroup, constSeries10, sortGroupByDate, maList, rollingOpt,
    listMean, vol10SqList, pctList, shift1, sampleVar, List.range_succ]

/-- C3 amended: `ma_10[9] = 50` as claimed, but `vol_10[9]` is
undefined; for a constant series the first defined volatility appears
at index 10 (here with an 11th observation) and equals 0. -/
theorem constant10_ma_and_vol :
    ((metricGroup "T" constSeries10).getD 9 default).ma10 = some 50 ∧
    ((metricGroup "T" constSeries10).getD 9 default).vol10Sq = none ∧
    ((metricGroup "T" constSeries11).getD 10 default).vol10Sq = some 0 := by
  norm_num [metricGroup, constSeries10, constSeries11, sortGroupByDate, maList,
    rollingOpt, listMean, vol10SqList, pctList, shift1, sampleVar, List.range_succ]

/-- C5: `total_return` is defined iff the sequence has at least 2
points and the first close is non-zero (every close of a metric row is
defined), in which case it is `last_close / first_close - 1`; in every
other case it is `none`, and the computation is total — its division is
guarded, so no error can arise from it. -/
theorem total_return_spec (g : List MRow) :
    totalReturn g =
      (if 2 ≤ g.length ∧ (g.headD default).close ≠ 0
       then some ((g.getLastD default).close / (g.headD default).close - 1)
       else none) := by
  unfold totalReturn
  by_cases h : 2 ≤ g.length ∧ ¬(g.headD default).close = 0
  · rw [if_pos h, if_pos h, if_neg h.2]
    rcases hg : g.getLast? with _ | y
    · rw [List.getLast?_eq_none_iff] at hg
      subst hg
      simp at h
    · have hlast : g.getLastD default = y := by
        rw [List.getLastD_eq_getLast?, hg]
        rfl
      simp [lastClose, hg, hlast]
  · rw [if_neg h, if_neg h]

/-- C1 counterexample: an empty MetricPoint sequence for ticker "XYZ"
produces no SummaryRow at all (`if g.empty: continue`), rather than the
all-undefined row the claim promises. -/
theorem empty_group_yields_no_row :
    summarizeGroup "XYZ" ([] : List MRow) = Except.ok none ∧
    summarizeGroup "XYZ" ([] : List MRow) ≠ Except.ok (some
      { ticker := "XYZ", total_return := none, return_5d := none,
        vol_10 := none, last_close := none }) := by decide

/-- C1 amended: an empty input sequence is skipped without error — the
ticker is simply absent from the summary table (no row is emitted). -/
theorem empty_group_skipped (t : String) :
    summarizeGroup t ([] : List MRow) = Except.ok none := rfl

/-- C4 (code bug): on a six-point series whose close five positions
back from the end is 0, the `ret_5d` division `last_close /
float(g["Close"].iloc[-6])` is unguarded against zero and the Summary
Reducer aborts with a `ZeroDivisionError` instead of yielding an
undefined `return_5d`. -/
theorem return5d_zero_division :
    compute_summary (compute_metrics zeroLookbackSeries) =
      Except.error SumError.zeroDivision := by decide

/-- C7: `load_data` fails — and fails with `noValidInput` — exactly
when no input source exposes all three required columns after
case/whitespace normalization.  Row contents do not occur on the right
side: rows lacking a parseable date or close can never cause the
failure. -/
theorem load_data_error_iff (srcs : List Source) :
    load_data srcs = Except.error LoadError.noValidInput ↔
      ∀ s ∈ srcs, requiredColsPresent s.cols = false := by
  unfold load_data
  by_cases he : (srcs.filterMap loadSource).isEmpty
  · rw [if_pos he]
    rw [List.isEmpty_iff] at he
    have hall := List.filterMap_eq_nil_iff.mp he
    constructor
    · intro _ s hs
      have h2 := hall s hs
      unfold loadSource at h2
      by_cases hc : requiredColsPresent s.cols
      · rw [if_pos hc] at h2
        cases h2
      · simpa using hc
    · intro _
      rfl
  · rw [if_neg he]
    constructor
    · intro hcon
      cases hcon
    · intro hall
      exfalso
      apply he
      rw [List.isEmpty_iff]
      apply List.filterMap_eq_nil_iff.mpr
      intro s hs
      unfold loadSource
      rw [if_neg]
      simp [hall s hs]

/-- C10: if some source passes the column check but every row of every
column-passing source is dropped by the parse filter, `load_data`
succeeds with the empty table instead of raising `noValidInput`.
(Sources failing the column check are skipped wholesale, so their rows
— parseable or not — are unconstrained.) -/
theorem load_data_all_rows_dropped (srcs : List Source)
    (h1 : ∃ s ∈ srcs, requiredColsPresent s.cols = true)
    (h2 : ∀ s ∈ srcs, requiredColsPresent s.cols = true →
      s.rows.filterMap parseRow = []) :
    load_data srcs = Except.ok [] := by
  unfold load_data
  have hne : ¬ (srcs.filterMap loadSource).isEmpty = true := by
    intro he
    rw [List.isEmpty_iff] at he
    obtain ⟨s, hs, hc⟩ := h1
    have h3 := List.filterMap_eq_nil_iff.mp he s hs
    unfold loadSource at h3
    rw [if_pos hc] at h3
    cases h3
  rw [if_neg hne]
  have hflat : (srcs.filterMap loadSource).flatten = [] := by
    apply List.flatten_eq_nil_iff.mpr
    intro l hl
    obtain ⟨s, hs, hsome⟩ := List.mem_filterMap.mp hl
    unfold loadSource at hsome
    by_cases hc : requiredColsPresent s.cols
    · rw [if_pos hc] at hsome
      have hl2 : l = sortObs (s.rows.filterMap parseRow) := (Option.some.inj hsome).symm
      rw [hl2, h2 s hs hc]
      rfl
    · rw [if_neg hc] at hsome
      cases hsome
  rw [hflat]
  rfl

/-- Witness for C10: one source has the required columns (spelled
" date ", "TICKER", "close") and only an unparseable-date row; a second
source lacks the Close column but holds a parseable row — it is skipped
by the column check, so the result is still the empty table. -/
theorem load_data_all_rows_dropped_witness :
    load_data [allRowsDroppedSource, noCloseSource] = Except.ok [] :=
  load_data_all_rows_dropped [allRowsDroppedSource, noCloseSource]
    ⟨allRowsDroppedSource, by decide⟩ (by decide)

/-- C6 counterexample: a source repeating the same (ticker, date) row
passes normalization unchanged — the Normalizer sorts but never
deduplicates, so the per-ticker dates are neither unique nor strictly
increasing. -/
theorem duplicate_dates_not_strict :
    load_data [dupDateSource] = Except.ok [⟨1, "A", 10⟩, ⟨1, "A", 10⟩] ∧
    (seriesFor [⟨1, "A", 10⟩, ⟨1, "A", 10⟩] "A").map (fun o => o.date) = [1, 1] ∧
    ¬ List.Chain' (fun a b : Int => a < b) [1, 1] := by
  refine ⟨by decide, by decide, ?_⟩
  intro h
  exact absurd (List.chain'_cons.mp h).1 (lt_irrefl 1)

/-- C6 amended: within a ticker's series the dates are sorted in
non-decreasing (not necessarily strictly increasing) order; every
surviving row carries a parsed date and close by construction of
`parseRow`. -/
theorem series_dates_sorted (srcs : List Source) (out : List Obs) (t : String)
    (h : load_data srcs = Except.ok out) :
    List.Chain' (fun a b => a.date ≤ b.date) (seriesFor out t) := by
  unfold load_data at h
  by_cases he : (srcs.filterMap loadSource).isEmpty
  · rw [if_pos he] at h
    cases h
  · rw [if_neg he] at h
    have hout : out = sortObs (srcs.filterMap loadSource).flatten :=
      (Except.ok.inj h).symm
    have hsorted : List.Sorted obsLe out := by
      rw [hout]
      exact List.sorted_insertionSort obsLe _
    have hpair : List.Pairwise obsLe (seriesFor out t) :=
      List.Pairwise.filter _ hsorted
    have hdate : List.Pairwise (fun a b : Obs => a.date ≤ b.date) (seriesFor out t) := by
      apply List.Pairwise.imp_of_mem ?_ hpair
      intro a b ha hb hab
      have hta : a.ticker = t := by
        have := (List.mem_filter.mp ha).2
        simpa using this
      have htb : b.ticker = t := by
        have := (List.mem_filter.mp hb).2
        simpa using this
      rcases hab with hlt | ⟨_, hle⟩
      · rw [hta, htb] at hlt
        rw [charListLt_irrefl t.data] at hlt
        cases hlt
      · exact hle
    exact hdate.chain'

/-- Witness for the amended C6 at the duplicate-row source. -/
theorem series_dates_sorted_witness :
    List.Chain' (fun a b => a.date ≤ b.date)
      (seriesFor [⟨1, "A", 10⟩, ⟨1, "A", 10⟩] "A") :=
  series_dates_sorted [dupDateSource] [⟨1, "A", 10⟩, ⟨1, "A", 10⟩] "A" (by decide)

/-- Every row `metricGroup` emits carries the group's ticker. -/
theorem metricGroup_ticker (t : String) (g : List Obs) :
    ∀ x ∈ metricGroup t g, x.ticker = t := by
  intro x hx
  simp only [metricGroup, List.mem_map] at hx
  obtain ⟨i, _, rfl⟩ := hx
  rfl

theorem metricGroup_filter_self (t : String) (g : List Obs) :
    (metricGroup t g).filter (fun r => r.ticker == t) = metricGroup t g := by
  rw [List.filter_eq_self]
  intro x hx
  rw [metricGroup_ticker t g x hx]
  simp

theorem metricGroup_filter_ne (t u : String) (g : List Obs) (h : u ≠ t) :
    (metricGroup u g).filter (fun r => r.ticker == t) = [] := by
  rw [List.filter_eq_nil_iff]
  intro x hx
  rw [metricGroup_ticker u g x hx]
  simp [h]

theorem tickerKeys_nodup (rows : List Obs) : (tickerKeys rows).Nodup := by
  unfold tickerKeys
  exact ((List.perm_insertionSort strLe _).nodup_iff).mpr (List.nodup_dedup _)

theorem mem_tickerKeys (rows : List Obs) (t : String) :
    t ∈ tickerKeys rows ↔ t ∈ rows.map (fun r => r.ticker) := by
  unfold tickerKeys
  rw [(List.perm_insertionSort strLe _).mem_iff, List.mem_dedup]

/-- A `flatMap` over duplicate-free keys in which every key other than
`t` contributes nothing reduces to the contribution of `t`. -/
theorem flatMap_if_single {β : Type _} (l : List String) (t : String)
    (s : String → List β) (hnd : l.Nodup) (hz : ∀ a ∈ l, a ≠ t → s a = []) :
    l.flatMap s = if t ∈ l then s t else [] := by
  induction l with
  | nil => simp
  | cons a l ih =>
    rw [List.flatMap_cons]
    rcases List.nodup_cons.mp hnd with ⟨ha, hnd2⟩
    have ih2 := ih hnd2 (fun b hb hbt => hz b (List.mem_cons_of_mem _ hb) hbt)
    by_cases hat : a = t
    · subst hat
      rw [ih2, if_neg ha, if_pos (List.mem_cons_self a l)]
      simp
    · rw [hz a (List.mem_cons_self a l) hat, List.nil_append, ih2]
      by_cases htl : t ∈ l
      · rw [if_pos htl, if_pos (List.mem_cons_of_mem a htl)]
      · rw [if_neg htl, if_neg ?hmem]
        case hmem =>
          intro hc
          rcases List.mem_cons.mp hc with hc1 | hc2
          · exact hat hc1.symm
          · exact htl hc2

/-- The rows of one ticker inside the full Metrics table are exactly
the Metrics Engine run on that ticker's filtered input rows. -/
theorem compute_metrics_filter (rows : List Obs) (t : String) :
    (compute_metrics rows).filter (fun r => r.ticker == t) =
      metricGroup t (rows.filter (fun r => r.ticker == t)) := by
  unfold compute_metrics
  rw [List.filter_flatMap]
  rw [flatMap_if_single (tickerKeys rows) t _ (tickerKeys_nodup rows)
    (fun a _ hat => metricGroup_filter_ne t a _ hat)]
  by_cases ht : t ∈ tickerKeys rows
  · rw [if_pos ht, metricGroup_filter_self]
  · rw [if_neg ht]
    have hnil : rows.filter (fun r => r.ticker == t) = [] := by
      rw [List.filter_eq_nil_iff]
      intro r hr hbeq
      apply ht
      rw [mem_tickerKeys]
      exact List.mem_map.mpr ⟨r, hr, eq_of_beq hbeq⟩
    rw [hnil]
    rfl

/-- C8: if two input collections interleave their records differently
but agree on every ticker's own subsequence (the order-preserving
reading of "reordering records across tickers"), then each ticker's
MetricPoint rows and its SummaryRow computation coincide. -/
theorem ticker_order_independence (rows rows' : List Obs) (t : String)
    (h : rows.filter (fun r => r.ticker == t) = rows'.filter (fun r => r.ticker == t)) :
    (compute_metrics rows).filter (fun r => r.ticker == t) =
      (compute_metrics rows').filter (fun r => r.ticker == t) ∧
    summarizeGroup t ((compute_metrics rows).filter (fun r => r.ticker == t)) =
      summarizeGroup t ((compute_metrics rows').filter (fun r => r.ticker == t)) := by
  have hm : (compute_metrics rows).filter (fun r => r.ticker == t) =
      (compute_metrics rows').filter (fun r => r.ticker == t) := by
    rw [compute_metrics_filter, compute_metrics_filter, h]
  exact ⟨hm, by rw [hm]⟩

/-- Witness for C8 on two concrete interleavings of tickers "A" and "B". -/
theorem ticker_order_independence_witness :
    (compute_metrics permInput1).filter (fun r => r.ticker == "A") =
      (compute_metrics permInput2).filter (fun r => r.ticker == "A") ∧
    summarizeGroup "A" ((compute_metrics permInput1).filter (fun r => r.ticker == "A")) =
      summarizeGroup "A" ((compute_metrics permInput2).filter (fun r => r.ticker == "A")) :=
  ticker_order_independence permInput1 permInput2 "A" (by decide)

end Dashboard
